import Mathlib

/-!
Verification of the table-normalization and style-cascade core of the
markdown-viewer extension.

The development shallowly embeds:
* `src/utils/table-dom-normalizer.ts` (`parseSpan`, `normalizeSpanValue`,
  `getRowGroupEnds`, `getCellText`, `computeMaxColumns`,
  `normalizeTableElement`);
* `src/utils/css-specificity.ts` (`calcSelectorSpecificity`,
  `calculateSpecificity`, `compareSpecificity`, `addSpecificity`);
* `src/utils/html-style-preprocessor.ts` (`readInlineStyles`, `compareDecl`,
  `applyCss`, and the no-DOM fallback branch of `preprocessHtmlForDocx`);
* the per-cell paragraph-alignment mapping of
  `src/exporters/docx-table-from-dom.ts` (`convertTableDomToDocx`).

DOM trees are modelled by the mutual inductives `DomNode`/`DomForest`;
JavaScript arrays that are written at arbitrary indices are modelled by
association lists whose lookup returns the most recent write, together with
explicit length bookkeeping (a JS array's `length` is one more than the
largest index ever assigned).  Machine numbers are modelled by `Nat`/`Int`:
every quantity involved (spans, column cursors, specificity counts, source
orders) is a small non-negative integer in the source, and the source floors
attribute values before use.
-/

mutual

/-- An ordered DOM tree: a node is a text node or an element with a tag and
an ordered forest of children.  (`DomForest` is a list type, kept mutual so
that all tree functions are structurally recursive.) -/
inductive DomNode : Type where
  | text : String → DomNode
  | elem : String → DomForest → DomNode

/-- An ordered list of sibling DOM nodes. -/
inductive DomForest : Type where
  | nil : DomForest
  | cons : DomNode → DomForest → DomForest

end

mutual

/-- Source `textContent` of a single node (text content of the subtree). -/
def textContentN : DomNode → String
  | .text s => s
  | .elem _ cs => textContentF cs

/-- Source `textContent` of a forest: the concatenation of all text nodes in
document order (mirrors the DOM `textContent` accessor used by
`getCellText`). -/
def textContentF : DomForest → String
  | .nil => ""
  | .cons n f => textContentN n ++ textContentF f

end

mutual

/-- Remove every `<table>` descendant below a single node (the node itself
is kept; `getCellText` calls this on a cell, and a cell is never a table). -/
def pruneTablesN : DomNode → DomNode
  | .text s => .text s
  | .elem t cs => .elem t (pruneTablesF cs)

/-- Remove every `<table>` descendant from a forest, keeping everything
else; mirrors the `clone.querySelectorAll('table')` / `table.remove()` loop
of `getCellText` in `table-dom-normalizer.ts`. -/
def pruneTablesF : DomForest → DomForest
  | .nil => .nil
  | .cons (.text s) f => .cons (.text s) (pruneTablesF f)
  | .cons (.elem t cs) f =>
      if t = "table" then pruneTablesF f
      else .cons (pruneTablesN (.elem t cs)) (pruneTablesF f)

end

mutual

/-- All `<table>` elements in the subtree of one node, itself included,
in document order. -/
def collectTablesN : DomNode → List DomNode
  | .text _ => []
  | .elem t cs =>
      (if t = "table" then [DomNode.elem t cs] else []) ++ collectTablesF cs

/-- All `<table>` descendants of a forest in document order; mirrors
`Array.from(cell.querySelectorAll('table'))` in `normalizeTableElement`. -/
def collectTablesF : DomForest → List DomNode
  | .nil => []
  | .cons n f => collectTablesN n ++ collectTablesF f

end

/-- Whitespace as far as JavaScript's `String.prototype.trim` is concerned
(restricted to the ASCII whitespace characters that can occur here). -/
def isJsSpace (c : Char) : Bool :=
  c = ' ' || c = '\t' || c = '\n' || c = '\r' || c = '\x0b' || c = '\x0c'

/-- JavaScript's `String.prototype.trim`: drop leading and trailing
whitespace. -/
def jsTrim (s : String) : String :=
  String.mk (((s.data.dropWhile isJsSpace).reverse.dropWhile isJsSpace).reverse)

/-- Source `getCellText` from `table-dom-normalizer.ts`: clone the cell, remove all
nested `<table>` subtrees, then take the trimmed `textContent` (the
`|| ''` of the source is the identity here because `trim` of the empty
string is the empty string). -/
def getCellText (content : DomForest) : String :=
  jsTrim (textContentF (pruneTablesF content))

mutual

/-- Replace the children of every `<table>` element below a node by the
empty forest. -/
def clearTablesN : DomNode → DomNode
  | .text s => .text s
  | .elem t cs =>
      if t = "table" then .elem t .nil else .elem t (clearTablesF cs)

/-- Replace the children of every `<table>` element in a forest by the empty
forest (used to state that nested-table content never reaches cell text). -/
def clearTablesF : DomForest → DomForest
  | .nil => .nil
  | .cons n f => .cons (clearTablesN n) (clearTablesF f)

end

/-! ## The table normalizer (`table-dom-normalizer.ts`) -/

/-- A source table cell: its `rowspan`/`colspan` attributes after
`parseSpan` (`none` models an absent, empty, or non-numeric attribute, for
which `parseSpan` returns `null`; `some v` models a numeric attribute whose
`Math.floor` is `v`), and its DOM content. -/
structure SrcCell where
  rowspanAttr : Option Int
  colspanAttr : Option Int
  content : DomForest

/-- A source table row: the identity of its immediate parent element
(`thead`/`tbody`/`tfoot`/the table itself), modelled as a number, and its
cells in document order.  The row list of a table is taken as input already
restricted to this table's own rows, which is what `getTableRows` produces
with its `row.closest('table') === table` filter. -/
structure SrcRow where
  group : Nat
  cells : List SrcCell

/-- Source `normalizeSpanValue` from `table-dom-normalizer.ts`:
`value && value > 1 ? value : 1` (so `null`, `0`, and all values `≤ 1`
normalize to `1`). -/
def normalizeSpanValue : Option Int → Int
  | none => 1
  | some v => if 1 < v then v else 1

/-- Last index of the run of equal group identities that starts at row `r`
with identity `g` and continues through the given list (the tail of the row
list after row `r`). -/
def runEndFrom (r : Nat) (g : Nat) : List Nat → Nat
  | [] => r
  | g' :: rest => if g' = g then runEndFrom (r + 1) g' rest else r

/-- The last row index of the row-group containing row `r`: rows are grouped
by runs of identical immediate parents, exactly as `getRowGroupEnds` in
`table-dom-normalizer.ts` computes them by scanning for parent changes. -/
def rowGroupEndAt (gs : List Nat) (r : Nat) : Nat :=
  match gs.drop r with
  | [] => r
  | g :: rest => runEndFrom r g rest

/-- Source `getRowGroupEnds`: for every row index, the last row index sharing the
same immediate parent run. -/
def getRowGroupEnds (gs : List Nat) : List Nat :=
  (List.range gs.length).map (rowGroupEndAt gs)

/-- One slot of the normalized grid (`TableDomCell` with the origin fields
of the second-pass writes in `normalizeTableElement`). -/
structure NCell where
  row : Nat
  col : Nat
  originRow : Nat
  originCol : Nat
  rowspan : Nat
  colspan : Nat
  text : String
  nestedTables : List DomNode

/-- The grid under construction: a journal of index assignments
`grid[rr][cc] = v`; the most recent assignment to an index is the value of
that index, and an index never assigned is a hole (`lookupG` returns
`none`). -/
abbrev Grid := List ((Nat × Nat) × NCell)

/-- Read `grid[r][c]`: the most recent assignment wins (new assignments are
prepended). -/
def lookupG (g : Grid) (r c : Nat) : Option NCell :=
  (g.find? (fun e => e.1.1 == r && e.1.2 == c)).map (·.2)

/-- The row-start `spanTracker` decrement of both passes: every positive
entry goes down by one. -/
def decTracker (tr : List Nat) : List Nat :=
  tr.map (fun v => if 0 < v then v - 1 else v)

/-- JS array assignment `a[i] = v` on a number array, with holes modelled as
`0` (the source only reads entries via `a[i] > 0` and `a[i] || 0`, for which
a hole and `0` are indistinguishable). -/
def setPad (l : List Nat) (i v : Nat) : List Nat :=
  (l ++ List.replicate (i + 1 - l.length) 0).set i v

/-- The tracker-marking loop of both passes:
`spanTracker[c] = max(spanTracker[c] || 0, rowspan - 1)` for every column of
the placed cell. -/
def markTracker (tr : List Nat) (col cs rs : Nat) : List Nat :=
  (List.range cs).foldl
    (fun t j => setPad t (col + j) (max (t.getD (col + j) 0) (rs - 1))) tr

/-- Fuel-indexed column-cursor skip. -/
def skipColsFuel : Nat → List Nat → Nat → Nat
  | 0, _, col => col
  | fuel + 1, tr, col =>
      if 0 < tr.getD col 0 then skipColsFuel fuel tr (col + 1) else col

/-- Source `while (spanTracker[col] > 0) col += 1` — advance the column cursor past
occupied columns.  `tr.length` steps always suffice because entries past the
end of the tracker are holes. -/
def skipCols (tr : List Nat) (col : Nat) : Nat :=
  skipColsFuel tr.length tr col

/-- Effective rowspan (both passes):
`rowspanValue === 0 ? rowGroupEnd - r + 1 : normalizeSpanValue(rowspanValue)`.
(`rge ≥ r` whenever the source evaluates this, so the `Nat` subtraction is
exact.) -/
def resolveRowspan (rge r : Nat) (attr : Option Int) : Nat :=
  if attr = some 0 then rge - r + 1 else (normalizeSpanValue attr).toNat

/-- Effective colspan of the second pass:
`colspanValue === 0 ? Math.max(1, maxColumns - col) : normalizeSpanValue(colspanValue)`
(truncated `Nat` subtraction agrees with the JS `max` against a possibly
negative difference). -/
def resolveColspanFinal (maxC col : Nat) (attr : Option Int) : Nat :=
  if attr = some 0 then max 1 (maxC - col) else (normalizeSpanValue attr).toNat

/-- The first pass's effective colspan: `colspan="0"` is *not* special here
(`normalizeSpanValue(0)` is `1`). -/
def resolveColspanPass1 (attr : Option Int) : Nat :=
  (normalizeSpanValue attr).toNat

/-- State of the first pass inside a row: tracker, column cursor, running
`maxColumns`. -/
def pass1Cell (r rge : Nat) (st : List Nat × Nat × Nat) (cell : SrcCell) :
    List Nat × Nat × Nat :=
  let col := skipCols st.1 st.2.1
  let rs := resolveRowspan rge r cell.rowspanAttr
  let cs := resolveColspanPass1 cell.colspanAttr
  (markTracker st.1 col cs rs, col + cs, max st.2.2 (col + cs))

/-- The row loop of `computeMaxColumns`: decrement the tracker, place the
row's cells, then take `maxColumns = max(maxColumns, col)`. -/
def pass1Rows (gEnds : List Nat) : List SrcRow → Nat → List Nat → Nat → Nat
  | [], _, _, maxC => maxC
  | row :: rest, r, tr, maxC =>
      let st := row.cells.foldl (pass1Cell r (gEnds.getD r r)) (decTracker tr, 0, maxC)
      pass1Rows gEnds rest (r + 1) st.1 (max st.2.2 st.2.1)

/-- Source `computeMaxColumns` from `table-dom-normalizer.ts`. -/
def computeMaxColumns (rows : List SrcRow) (gEnds : List Nat) : Nat :=
  pass1Rows gEnds rows 0 [] 0

/-- The grid slot written at `(rr, cc)` for a cell placed at origin
`(oR, oC)` with resolved spans `rs`, `cs`. -/
def cellRecordAt (oR oC rs cs : Nat) (txt : String) (tabs : List DomNode)
    (rr cc : Nat) : NCell :=
  ⟨rr, cc, oR, oC, rs, cs, txt, tabs⟩

/-- The write block of the second pass: `grid[r+i][col+j] = {...}` for every
`i < rowspan`, `j < colspan`. -/
def blockWrites (oR oC rs cs : Nat) (txt : String) (tabs : List DomNode) :
    List ((Nat × Nat) × NCell) :=
  (List.range rs).flatMap (fun i =>
    (List.range cs).map (fun j =>
      ((oR + i, oC + j), cellRecordAt oR oC rs cs txt tabs (oR + i) (oC + j))))

/-- Placement of one cell in the second pass of `normalizeTableElement`:
skip occupied columns, resolve spans, write every covered slot, mark the
tracker, advance the cursor. -/
def placeCell (maxC r rge : Nat) (st : Grid × List Nat × Nat) (cell : SrcCell) :
    Grid × List Nat × Nat :=
  let col := skipCols st.2.1 st.2.2
  let rs := resolveRowspan rge r cell.rowspanAttr
  let cs := resolveColspanFinal maxC col cell.colspanAttr
  let g := (blockWrites r col rs cs (getCellText cell.content)
      (collectTablesF cell.content)).foldl (fun g e => e :: g) st.1
  (g, markTracker st.2.1 col cs rs, col + cs)

/-- One row of the second pass: decrement the tracker, then place the row's
cells starting from column cursor `0`. -/
def rowStep (maxC r rge : Nat) (cells : List SrcCell) (g : Grid) (tr : List Nat) :
    Grid × List Nat :=
  let st := cells.foldl (placeCell maxC r rge) (g, decTracker tr, 0)
  (st.1, st.2.1)

/-- The row loop of the second pass. -/
def passRows (maxC : Nat) (gEnds : List Nat) :
    List SrcRow → Nat → Grid × List Nat → Grid × List Nat
  | [], _, st => st
  | row :: rest, r, st =>
      passRows maxC gEnds rest (r + 1)
        (rowStep maxC r (gEnds.getD r r) row.cells st.1 st.2)

/-- Group identities of a table's rows. -/
def tableGroupIds (rows : List SrcRow) : List Nat := rows.map (·.group)

/-- Source `getRowGroupEnds` applied to a table's rows. -/
def tableRowGroupEnds (rows : List SrcRow) : List Nat :=
  getRowGroupEnds (tableGroupIds rows)

/-- Source `computeMaxColumns` applied to a table's rows. -/
def tableMaxColumns (rows : List SrcRow) : Nat :=
  computeMaxColumns rows (tableRowGroupEnds rows)

/-- The grid after the second pass of `normalizeTableElement`, before
padding. -/
def rawGrid (rows : List SrcRow) : Grid :=
  (passRows (tableMaxColumns rows) (tableRowGroupEnds rows) rows 0 ([], [])).1

/-- Source `grid.length` contributed by the writes: one more than the largest row
index ever assigned. -/
def gridMaxRow (g : Grid) : Nat := g.foldr (fun e a => max (e.1.1 + 1) a) 0

/-- The largest `row.length` over the grid's rows: one more than the largest
column index ever assigned. -/
def gridMaxCol (g : Grid) : Nat := g.foldr (fun e a => max (e.1.2 + 1) a) 0

/-- The synthetic 1×1 empty cell used by the padding loop for unset slots. -/
def synthCell (r c : Nat) : NCell := ⟨r, c, r, c, 1, 1, "", []⟩

/-- All `(row, col)` coordinates visited by the padding loop, in loop
order. -/
def padPairs (rc cc : Nat) : List (Nat × Nat) :=
  (List.range rc).flatMap (fun r => (List.range cc).map (fun c => (r, c)))

/-- The padding loop of `normalizeTableElement`: every unset slot inside the
`rowCount × colCount` rectangle becomes a synthetic cell. -/
def padGrid (g : Grid) (rc cc : Nat) : Grid :=
  (padPairs rc cc).foldl
    (fun g p =>
      if (lookupG g p.1 p.2).isNone then (p, synthCell p.1 p.2) :: g else g) g

/-- The result of `normalizeTableElement`. -/
structure NormalizedTable where
  rowCount : Nat
  colCount : Nat
  cells : Grid

/-- Source `normalizeTableElement` from `table-dom-normalizer.ts`:
`rowCount = grid.length` (the rows initialized by the loop plus every row
index written by a span), `colCount = Math.max(0, maxColumns, ...row
lengths)`, then pad to a dense rectangle. -/
def normalizeTableElement (rows : List SrcRow) : NormalizedTable :=
  let g := rawGrid rows
  let rc := max rows.length (gridMaxRow g)
  let cc := max (tableMaxColumns rows) (gridMaxCol g)
  ⟨rc, cc, padGrid g rc cc⟩

/-- Read one slot of a normalized table. -/
def cellAt (t : NormalizedTable) (r c : Nat) : Option NCell :=
  lookupG t.cells r c

/-- A cell with plain text content and the given span attributes. -/
def mkCell (rs cs : Option Int) (s : String) : SrcCell :=
  ⟨rs, cs, .cons (.text s) .nil⟩

/-- The spec's §8 scenario: first row all headers, second row starts with a
`rowspan="2"` cell, third row a `colspan="2"` cell plus one more cell. -/
def scenarioRows : List SrcRow :=
  [⟨0, [mkCell none none "h1", mkCell none none "h2", mkCell none none "h3"]⟩,
   ⟨0, [mkCell (some 2) none "A", mkCell none none "B", mkCell none none "C"]⟩,
   ⟨0, [mkCell none (some 2) "D", mkCell none none "E"]⟩]

/-! ## The docx cell builder (`docx-table-from-dom.ts`) -/

/-- Paragraph alignment values of the target word-processor library that the
builder can emit. -/
inductive DocxAlignment : Type where
  | left
  | center
  | right
  | justified
deriving DecidableEq

/-- The paragraph alignment chosen per cell by `convertTableDomToDocx`
(`docx-table-from-dom.ts`, the `alignment:` ternary of the `Paragraph`
construction):
`textAlign === 'center' ? CENTER : textAlign === 'right' ? RIGHT : LEFT`. -/
def paragraphAlignment (textAlign : String) : DocxAlignment :=
  if textAlign = "center" then .center
  else if textAlign = "right" then .right
  else .left

/-! ## The no-DOM fallback of `preprocessHtmlForDocx`
(`html-style-preprocessor.ts`) -/

/-- Case-insensitive prefix test: the pattern is given in lower case and the
subject is lowered character by character. -/
def startsWithCI : List Char → List Char → Bool
  | [], _ => true
  | _ :: _, [] => false
  | p :: ps, c :: cs => p = Char.toLower c && startsWithCI ps cs

/-- Scan for the first `>` and return what follows it (the lazy
`[\s\S]*?>` step of the fallback pattern). -/
def findGt : List Char → Option (List Char)
  | [] => none
  | c :: t => if c = '>' then some t else findGt t

/-- Scan for the first case-insensitive `</style>` and return what follows
it (the lazy `[\s\S]*?<\/style>` step of the fallback pattern). -/
def findCloseTag : List Char → Option (List Char)
  | [] => none
  | c :: t =>
      if startsWithCI "</style>".data (c :: t) then some ((c :: t).drop 8)
      else findCloseTag t

/-- Fuel-indexed global replacement of
`/<style[\s\S]*?>[\s\S]*?<\/style>/gi` by the empty string: at each
position, if a whole match starts here it is dropped and scanning resumes
after it, otherwise the character is kept.  Any fuel of at least the
string's length is exact. -/
def stripAuxF : Nat → List Char → List Char
  | 0, s => s
  | _ + 1, [] => []
  | fuel + 1, c :: t =>
      if startsWithCI "<style".data (c :: t) then
        match findGt ((c :: t).drop 6) with
        | some r1 =>
            match findCloseTag r1 with
            | some r2 => stripAuxF fuel r2
            | none => c :: stripAuxF fuel t
        | none => c :: stripAuxF fuel t
      else c :: stripAuxF fuel t

/-- Source `html.replace(/<style[\s\S]*?>[\s\S]*?<\/style>/gi, '')`. -/
def stripStyleTags (s : String) : String :=
  String.mk (stripAuxF s.data.length s.data)

/-- The environment-degraded branch of `preprocessHtmlForDocx`
(`html-style-preprocessor.ts` before any DOM work): empty input yields `''`
(`if (!html) return ''`), and with `DOMParser` undefined the input is
returned with `<style>` blocks removed textually. -/
def preprocessHtmlForDocxNoDom (html : String) : String :=
  if html = "" then "" else stripStyleTags html

/-- Does a case-insensitive `<style` occur anywhere in the string? -/
def hasStyleOpenCI : List Char → Bool
  | [] => false
  | c :: t => startsWithCI "<style".data (c :: t) || hasStyleOpenCI t

/-! ## CSS selector specificity (`css-specificity.ts`)

The selector string is parsed by `postcss-selector-parser`; the embedding
starts from the parsed tree.  `SelChain` is the ordered node list of one
selector, and a pseudo's argument is a comma-separated list of selectors.
`Container.walk` of the parser calls the callback on every node and then
descends into the node's children whenever the callback did not return
`false` — the callback of `calcSelectorSpecificity` never returns a value,
so the walk always descends, in particular into the arguments of a
functional pseudo after the pseudo itself was handled. -/

mutual

/-- One node of a parsed selector. -/
inductive SelNode : Type where
  | id : String → SelNode
  | cls : String → SelNode
  | attrSel : String → SelNode
  | tag : String → SelNode
  | comb : String → SelNode
  | pseudo : String → SelArgs → SelNode

/-- The ordered nodes of one selector. -/
inductive SelChain : Type where
  | nil : SelChain
  | cons : SelNode → SelChain → SelChain

/-- A comma-separated list of selectors (a pseudo's argument list, or the
root's selector list). -/
inductive SelArgs : Type where
  | nil : SelArgs
  | cons : SelChain → SelArgs → SelArgs

end

/-- Specificity triple `(ids, classes/attributes/pseudo-classes,
types/pseudo-elements)`. -/
abbrev Specificity : Type := Nat × Nat × Nat

/-- Source `addSpecificity` from `css-specificity.ts`. -/
def addSpecificity (a b : Specificity) : Specificity :=
  (a.1 + b.1, a.2.1 + b.2.1, a.2.2 + b.2.2)

/-- Source `compareSpecificity` from `css-specificity.ts`: lexicographic signed
difference. -/
def compareSpecificity (a b : Specificity) : Int :=
  if a.1 ≠ b.1 then (a.1 : Int) - b.1
  else if a.2.1 ≠ b.2.1 then (a.2.1 : Int) - b.2.1
  else if a.2.2 ≠ b.2.2 then (a.2.2 : Int) - b.2.2
  else 0

/-- The `PSEUDO_ELEMENTS` set. -/
def pseudoElementNames : List String :=
  ["before", "after", "first-line", "first-letter", "marker", "placeholder"]

/-- The `PSEUDO_SELECTOR_LIST` set. -/
def pseudoSelectorListNames : List String :=
  ["not", "is", "has", "matches", "-webkit-any", "-moz-any", "any"]

/-- The `ZERO_SPECIFICITY` set. -/
def zeroSpecificityNames : List String := ["where"]

/-- Source `node.value.replace(/^:+/, '').toLowerCase()`. -/
def pseudoName (v : String) : String :=
  String.mk ((v.data.dropWhile (fun c => c = ':')).map Char.toLower)

/-- Source `node.value.startsWith('::')`. -/
def startsWithDoubleColon (v : String) : Bool :=
  match v.data with
  | ':' :: ':' :: _ => true
  | _ => false

/-- Source `node.nodes?.length` as a truth value. -/
def argsNonEmpty : SelArgs → Bool
  | .nil => false
  | .cons _ _ => true

mutual

/-- The walk over one selector's nodes, threading the mutated `spec`. -/
def walkChain (spec : Specificity) : SelChain → Specificity
  | .nil => spec
  | .cons n rest => walkChain (visitNode spec n) rest

/-- The callback of `calcSelectorSpecificity` applied to one node, followed
by the walk's descent into the node's children (the parser's `walk` descends
unless the callback returns `false`, which this callback never does). -/
def visitNode (spec : Specificity) : SelNode → Specificity
  | .id _ => (spec.1 + 1, spec.2.1, spec.2.2)
  | .cls _ => (spec.1, spec.2.1 + 1, spec.2.2)
  | .attrSel _ => (spec.1, spec.2.1 + 1, spec.2.2)
  | .tag v => if v = "*" then spec else (spec.1, spec.2.1, spec.2.2 + 1)
  | .comb _ => spec
  | .pseudo v args =>
      let name := pseudoName v
      let afterCallback :=
        if zeroSpecificityNames.contains name then spec
        else if pseudoSelectorListNames.contains name && argsNonEmpty args then
          addSpecificity spec (maxArgSpecAux (0, 0, 0) args)
        else if startsWithDoubleColon v || pseudoElementNames.contains name then
          (spec.1, spec.2.1, spec.2.2 + 1)
        else (spec.1, spec.2.1 + 1, spec.2.2)
      walkArgs afterCallback args

/-- Descent of the walk into a pseudo's argument selectors (the callback on
a `selector`-typed node matches no branch, so it only descends). -/
def walkArgs (spec : Specificity) : SelArgs → Specificity
  | .nil => spec
  | .cons s rest => walkArgs (walkChain spec s) rest

/-- The `forEach` of the selector-list branch: take the most specific
argument (recursively computed, strictly-greater replaces). -/
def maxArgSpecAux (best : Specificity) : SelArgs → Specificity
  | .nil => best
  | .cons s rest =>
      let sp := walkChain (0, 0, 0) s
      maxArgSpecAux (if 0 < compareSpecificity sp best then sp else best) rest

end

/-- Source `calcSelectorSpecificity` from `css-specificity.ts`: start from
`[0,0,0]` and walk the selector. -/
def calcSelectorSpecificity (s : SelChain) : Specificity :=
  walkChain (0, 0, 0) s

/-- The `root.each` fold of `calculateSpecificity`: the most specific
top-level selector wins (strictly-greater replaces). -/
def calcRootAux (result : Specificity) : SelArgs → Specificity
  | .nil => result
  | .cons s rest =>
      let sp := calcSelectorSpecificity s
      calcRootAux (if 0 < compareSpecificity sp result then sp else result) rest

/-- Source `calculateSpecificity` from `css-specificity.ts`, applied to the parsed
selector list (the `try/catch` parse-failure branch is not modelled: inputs
are already trees). -/
def calculateSpecificity (root : SelArgs) : Specificity :=
  calcRootAux (0, 0, 0) root

/-! ## The style cascade (`html-style-preprocessor.ts`)

`applyCss` walks the parsed stylesheet rules; for each rule it collects the
matched elements with the best specificity among the rule's selectors, then
lets each supported declaration compete per `(element, property)` under
`compareDecl`, seeding each element's state with its parsed inline
declarations at the sentinel specificity `[1000, 0, 0]`.  DOM queries are
not recomputed here: each selector of a rule comes paired with the list of
element identifiers it matches (`doc.querySelectorAll(selector)`). -/

/-- A competing declaration (`DeclMeta` of the source). -/
structure DeclMeta where
  value : String
  important : Bool
  specificity : Specificity
  order : Nat
deriving DecidableEq

/-- Source `compareDecl`: importance first, then specificity, then source order. -/
def compareDecl (a b : DeclMeta) : Int :=
  if a.important ≠ b.important then (if a.important then 1 else -1)
  else if compareSpecificity a.specificity b.specificity ≠ 0 then
    compareSpecificity a.specificity b.specificity
  else (a.order : Int) - (b.order : Int)

/-- First-match association-list lookup. -/
def lookupA {κ α : Type} [DecidableEq κ] : List (κ × α) → κ → Option α
  | [], _ => none
  | (k, v) :: t, key => if k = key then some v else lookupA t key

/-- Source `Map.set`: a new binding shadows any previous one (lookup takes the
first match). -/
def setA {κ α : Type} (m : List (κ × α)) (k : κ) (v : α) : List (κ × α) :=
  (k, v) :: m

/-- Source `Map.set` keeping the first-insertion position, used for the
`elementSpecificity` map whose iteration order is the insertion order. -/
def updateA {κ α : Type} [DecidableEq κ] : List (κ × α) → κ → α → List (κ × α)
  | [], _, _ => []
  | (k, v) :: t, key, nv =>
      if k = key then (k, nv) :: t else (k, v) :: updateA t key nv

/-- Source `attr.split(';')`. -/
def splitSemi : List Char → List (List Char)
  | [] => [[]]
  | c :: t =>
      if c = ';' then [] :: splitSemi t
      else
        match splitSemi t with
        | [] => [[c]]
        | h :: r => (c :: h) :: r

/-- JS `trim` on a character list. -/
def trimChars (l : List Char) : List Char :=
  ((l.dropWhile isJsSpace).reverse.dropWhile isJsSpace).reverse

/-- Index of the first `:`, if any (`part.indexOf(':')`). -/
def idxOfColon : List Char → Option Nat
  | [] => none
  | c :: t => if c = ':' then some 0 else (idxOfColon t).map (· + 1)

/-- Case-insensitive suffix test (pattern in lower case). -/
def endsWithCI (pat : List Char) (s : List Char) : Bool :=
  startsWithCI pat.reverse s.reverse

/-- Source `value.replace(/\s*!important\s*$/i, '')` on an already-trimmed value:
drop the 10 characters of `!important` and any whitespace before them. -/
def stripImportantSuffix (v : List Char) : List Char :=
  ((v.take (v.length - 10)).reverse.dropWhile isJsSpace).reverse

/-- Source `readInlineStyles` from `html-style-preprocessor.ts`: parse the
element's `style` attribute into per-property declarations with the inline
sentinel specificity `[1000, 0, 0]` and a per-element order counter that
counts only the accepted declarations. -/
def readInlineStyles (attr : String) : List (String × DeclMeta) :=
  (((splitSemi attr.data).map trimChars).filter (fun l => !l.isEmpty)).foldl
    (fun st part =>
      match idxOfColon part with
      | none => st
      | some i =>
          let prop := String.mk ((trimChars (part.take i)).map Char.toLower)
          let rawVal := trimChars (part.drop (i + 1))
          let important := endsWithCI "!important".data rawVal
          let value := if important then stripImportantSuffix rawVal else rawVal
          if prop = "" || value.isEmpty then st
          else (setA st.1 prop ⟨String.mk value, important, (1000, 0, 0), st.2⟩, st.2 + 1))
    ([], 0) |>.1

/-- The `SUPPORTED_PROPERTIES` whitelist. -/
def supportedProperties : List String :=
  ["color", "background", "background-color", "font-family", "font-size",
   "font-weight", "font-style", "text-decoration", "text-align",
   "vertical-align", "border", "border-top", "border-right", "border-bottom",
   "border-left", "padding", "padding-top", "padding-right", "padding-bottom",
   "padding-left", "line-height"]

/-- One stylesheet rule as `applyCss` sees it: whether it sits inside an
at-rule (skipped wholesale), its comma-separated selectors each paired with
the elements the document query returns for it, and its declarations
`(property, value, important)` in source order. -/
structure CssRule where
  atRuleNested : Bool
  selectors : List (SelChain × List Nat)
  decls : List (String × String × Bool)

/-- The per-rule `elementSpecificity` map: every matched element with the
best specificity among the rule's matching selectors (strictly-greater
replaces; iteration order is first-insertion order). -/
def ruleElementSpecificity (sels : List (SelChain × List Nat)) :
    List (Nat × Specificity) :=
  sels.foldl
    (fun acc sel =>
      let spec := calculateSpecificity (.cons sel.1 .nil)
      sel.2.foldl
        (fun acc el =>
          match lookupA acc el with
          | none => acc ++ [(el, spec)]
          | some ex =>
              if 0 < compareSpecificity spec ex then updateA acc el spec else acc)
        acc)
    []

/-- The `walkDecls` collection: keep supported properties (lower-cased),
stamping each with the global source-order counter. -/
def collectDecls (decls : List (String × String × Bool)) (order0 : Nat) :
    List (String × String × Bool × Nat) × Nat :=
  decls.foldl
    (fun st d =>
      let p := String.mk (d.1.data.map Char.toLower)
      if supportedProperties.contains p then (st.1 ++ [(p, d.2.1, d.2.2, st.2)], st.2 + 1)
      else st)
    ([], order0)

/-- Processing of one rule: skip at-rule-nested rules, bail out early when
no element matches or no supported declaration remains, otherwise let every
declaration compete per matched element, seeding untouched elements from
their inline styles. -/
def applyRule (els : List (Nat × String))
    (st : List (Nat × List (String × DeclMeta)) × Nat) (rule : CssRule) :
    List (Nat × List (String × DeclMeta)) × Nat :=
  if rule.atRuleNested then st
  else
    let elSpec := ruleElementSpecificity rule.selectors
    if elSpec.isEmpty then st
    else
      let collected := collectDecls rule.decls st.2
      if collected.1.isEmpty then (st.1, collected.2)
      else
        let state := elSpec.foldl
          (fun state espec =>
            let current :=
              match lookupA state espec.1 with
              | some m => m
              | none => readInlineStyles ((lookupA els espec.1).getD "")
            let current := collected.1.foldl
              (fun m d =>
                let next : DeclMeta := ⟨d.2.1, d.2.2.1, espec.2, d.2.2.2⟩
                match lookupA m d.1 with
                | none => setA m d.1 next
                | some prev => if 0 < compareDecl next prev then setA m d.1 next else m)
              current
            setA state espec.1 current)
          st.1
        (state, collected.2)

/-- Source `applyCss` over a document: fold the rules with the global source-order
counter, returning each touched element's winning declarations. -/
def applyCss (els : List (Nat × String)) (rules : List CssRule) :
    List (Nat × List (String × DeclMeta)) :=
  (rules.foldl (applyRule els) ([], 0)).1

/-- The value the preprocessor resolves for `(element, property)` (the value
written back into the element's `style` attribute). -/
def resolvedValue (els : List (Nat × String)) (rules : List CssRule)
    (el : Nat) (prop : String) : Option String :=
  (lookupA (applyCss els rules) el).bind (fun m => (lookupA m prop).map (·.value))

/-- The largest `originRow + rowspan` over the journal's entries (the last
grid row any placed cell covers). -/
def supSpanEnd (g : Grid) : Nat :=
  g.foldr (fun e a => max (e.2.originRow + e.2.rowspan) a) 0

/-- Every journal entry of the second pass describes a slot inside the span
block of a source cell whose origin row is a source row. -/
def entryInv (bound : Nat) (e : (Nat × Nat) × NCell) : Prop :=
  e.2.row = e.1.1 ∧ e.2.col = e.1.2 ∧
  e.2.originRow ≤ e.1.1 ∧ e.1.1 < e.2.originRow + e.2.rowspan ∧
  e.2.originCol ≤ e.1.2 ∧ e.1.2 < e.2.originCol + e.2.colspan ∧
  e.2.originRow < bound ∧ 1 ≤ e.2.rowspan

/-- Every entry has a companion entry on the last row of its span block (the
write loop writes the whole block, and the journal never forgets a key). -/
def spanEndProp (g : Grid) : Prop :=
  ∀ e ∈ g, ∃ e', e' ∈ g ∧ e'.1.1 + 1 = e.2.originRow + e.2.rowspan

/-! ## Concrete inputs used by the claim theorems -/

/-- A table whose first cell spans two rows, followed by a full-width second
row (the shape of the repository's own extractor test). -/
def rowspanOverlapRows : List SrcRow :=
  [⟨0, [mkCell (some 2) none "A", mkCell none none "B", mkCell none none "C"]⟩,
   ⟨0, [mkCell none (some 2) "D"]⟩]

/-- One row whose `colspan="0"` cell is followed by another cell. -/
def colspanZeroRows : List SrcRow :=
  [⟨0, [mkCell none (some 0) "a", mkCell none none "b"]⟩]

/-- Three rows in one row-group, the first cell carrying `rowspan="0"`. -/
def rowGroupRows : List SrcRow :=
  [⟨0, [mkCell (some 0) none "a", mkCell none none "b"]⟩,
   ⟨0, [mkCell none none "c"]⟩,
   ⟨0, [mkCell none none "d"]⟩]

/-- A 1×1 table whose cell contains text and a nested table with text. -/
def nestedTableRows : List SrcRow :=
  [⟨0, [⟨none, none,
    .cons (.text "outer")
      (.cons (.elem "table"
        (.cons (.elem "tr" (.cons (.elem "td" (.cons (.text "INNER") .nil)) .nil)) .nil))
        .nil)⟩]⟩]

/-- One row whose first cell spans three rows in a one-row table. -/
def rowspanPastEndRows : List SrcRow :=
  [⟨0, [mkCell (some 3) none "a", mkCell none none "b"]⟩]

/-- The parsed selector `:where(#a)`. -/
def selWhereId : SelArgs :=
  .cons (.cons (.pseudo ":where" (.cons (.cons (.id "a") .nil) .nil)) .nil) .nil

/-- The parsed selector `:not(.a #b)`. -/
def selNotClsId : SelArgs :=
  .cons (.cons (.pseudo ":not"
    (.cons (.cons (.cls "a") (.cons (.comb " ") (.cons (.id "b") .nil))) .nil)) .nil) .nil

/-- One `<div style="color: blue">` element. -/
def cascadeEls : List (Nat × String) := [(0, "color: blue")]

/-- The stylesheet `div { color: red }`, matching the element. -/
def cascadeRulesPlain : List CssRule :=
  [⟨false, [(.cons (.tag "div") .nil, [0])], [("color", "red", false)]⟩]

/-- The stylesheet `div { color: red !important }`, matching the element. -/
def cascadeRulesImportant : List CssRule :=
  [⟨false, [(.cons (.tag "div") .nil, [0])], [("color", "red", true)]⟩]

/-- A selector consisting of `n` id selectors followed by one class
selector. -/
def idHeavyChain : Nat → SelChain
  | 0 => .cons (.cls "c") .nil
  | n + 1 => .cons (.id "a") (idHeavyChain n)

/-- A stylesheet whose single rule uses a selector with 1000 id selectors
(specificity `[1000, 1, 0]`), matching the element, declaring a
non-important color. -/
def cascadeRulesIdHeavy : List CssRule :=
  [⟨false, [(idHeavyChain 1000, [0])], [("color", "red", false)]⟩]

/-! ## Lemmas -/

theorem one_le_normalizeSpanValue (v : Option Int) : 1 ≤ normalizeSpanValue v := by
  cases v with
  | none => simp [normalizeSpanValue]
  | some v =>
      simp only [normalizeSpanValue]
      split <;> omega

mutual

theorem pruneTablesN_clearTablesN :
    (n : DomNode) → (∀ t cs, n ≠ .elem t cs ∨ t ≠ "table") →
      pruneTablesN (clearTablesN n) = pruneTablesN n
  | .text _, _ => rfl
  | .elem t cs, h => by
      have ht : t ≠ "table" := by
        rcases h t cs with h' | h'
        · exact absurd rfl h'
        · exact h'
      simp [clearTablesN, pruneTablesN, ht, pruneTablesF_clearTablesF cs]

theorem pruneTablesF_clearTablesF :
    (f : DomForest) → pruneTablesF (clearTablesF f) = pruneTablesF f
  | .nil => rfl
  | .cons (.text s) f => by
      simp [clearTablesF, clearTablesN, pruneTablesF, pruneTablesF_clearTablesF f]
  | .cons (.elem t cs) f => by
      by_cases h : t = "table" <;>
        simp [clearTablesF, clearTablesN, pruneTablesF, pruneTablesN, h,
          pruneTablesF_clearTablesF f, pruneTablesF_clearTablesF cs]

end

theorem sanity_getCellText_nested : getCellText
    (.cons (.text "outer")
      (.cons (.elem "table" (.cons (.elem "tr" (.cons (.text "INNER") .nil)) .nil))
        .nil)) = "outer" := by decide

/-- The spec's §8 scenario behaves as it states on the embedding. -/
theorem sanity_scenario :
    (normalizeTableElement scenarioRows).rowCount = 3 ∧
    (normalizeTableElement scenarioRows).colCount = 3 ∧
    (cellAt (normalizeTableElement scenarioRows) 1 0).map (·.rowspan) = some 2 ∧
    (cellAt (normalizeTableElement scenarioRows) 2 1).map (·.colspan) = some 2 := by
  decide



theorem lookupG_cons (k : Nat × Nat) (v : NCell) (g : Grid) (r c : Nat) :
    lookupG ((k, v) :: g) r c =
      if k.1 = r ∧ k.2 = c then some v else lookupG g r c := by
  by_cases h1 : k.1 = r <;> by_cases h2 : k.2 = c <;>
    simp [lookupG, List.find?_cons, h1, h2]

theorem foldl_prepend {α : Type} (es : List α) (g : List α) :
    es.foldl (fun acc e => e :: acc) g = es.reverse ++ g := by
  induction es generalizing g with
  | nil => rfl
  | cons e es ih => simp [List.foldl_cons, ih, List.append_assoc]

theorem lookupG_append_of_mem (l g : Grid) (r c : Nat) (v : NCell)
    (h1 : ((r, c), v) ∈ l) (h2 : ∀ e ∈ l, e.1 = (r, c) → e.2 = v) :
    lookupG (l ++ g) r c = some v := by
  induction l with
  | nil => cases h1
  | cons e l ih =>
      obtain ⟨k, w⟩ := e
      rw [List.cons_append, lookupG_cons]
      by_cases hk : k.1 = r ∧ k.2 = c
      · have : k = (r, c) := by
          obtain ⟨h1', h2'⟩ := hk; cases k; simp_all
        simp only [if_pos hk]
        exact congrArg some (h2 (k, w) (List.mem_cons_self _ _) this)
      · rw [if_neg hk]
        rcases List.mem_cons.mp h1 with h | h
        · exfalso; apply hk
          have : k = (r, c) := congrArg Prod.fst h.symm
          simp [this]
        · exact ih h (fun e he => h2 e (List.mem_cons_of_mem _ he))

theorem lookupG_append_of_not_mem (l g : Grid) (r c : Nat)
    (h : ∀ e ∈ l, e.1 ≠ (r, c)) :
    lookupG (l ++ g) r c = lookupG g r c := by
  induction l with
  | nil => rfl
  | cons e l ih =>
      obtain ⟨k, w⟩ := e
      rw [List.cons_append, lookupG_cons]
      have hk : ¬(k.1 = r ∧ k.2 = c) := by
        intro ⟨h1, h2⟩
        exact h (k, w) (List.mem_cons_self _ _) (by cases k; simp_all)
      rw [if_neg hk]
      exact ih (fun e he => h e (List.mem_cons_of_mem _ he))

theorem mem_blockWrites (oR oC rs cs : Nat) (txt : String) (tabs : List DomNode)
    (e : (Nat × Nat) × NCell) :
    e ∈ blockWrites oR oC rs cs txt tabs ↔
      ∃ i j, i < rs ∧ j < cs ∧
        e = ((oR + i, oC + j), cellRecordAt oR oC rs cs txt tabs (oR + i) (oC + j)) := by
  simp only [blockWrites, List.mem_flatMap, List.mem_map, List.mem_range]
  constructor
  · rintro ⟨i, hi, j, hj, he⟩
    exact ⟨i, j, hi, hj, he.symm⟩
  · rintro ⟨i, j, hi, hj, he⟩
    exact ⟨i, hi, j, hj, he.symm⟩

theorem one_le_resolveRowspan (rge r : Nat) (attr : Option Int) :
    1 ≤ resolveRowspan rge r attr := by
  unfold resolveRowspan
  split
  · omega
  · have := one_le_normalizeSpanValue attr
    omega

theorem one_le_resolveColspanFinal (maxC col : Nat) (attr : Option Int) :
    1 ≤ resolveColspanFinal maxC col attr := by
  unfold resolveColspanFinal
  split
  · omega
  · have := one_le_normalizeSpanValue attr
    omega

theorem le_skipColsFuel (fuel : Nat) : ∀ tr col, col ≤ skipColsFuel fuel tr col := by
  induction fuel with
  | zero => intro tr col; simp [skipColsFuel]
  | succ fuel ih =>
      intro tr col
      simp only [skipColsFuel]
      split
      · exact le_trans (Nat.le_succ col) (ih tr (col + 1))
      · exact le_refl col

theorem le_skipCols (tr : List Nat) (col : Nat) : col ≤ skipCols tr col :=
  le_skipColsFuel tr.length tr col

/-- The grid component of `placeCell` is the write block on top of the old
grid. -/
theorem placeCell_grid (maxC r rge : Nat) (g : Grid) (tr : List Nat) (col : Nat)
    (cell : SrcCell) :
    (placeCell maxC r rge (g, tr, col) cell).1 =
      (blockWrites r (skipCols tr col)
          (resolveRowspan rge r cell.rowspanAttr)
          (resolveColspanFinal maxC (skipCols tr col) cell.colspanAttr)
          (getCellText cell.content) (collectTablesF cell.content)).reverse ++ g := by
  simp [placeCell, foldl_prepend]

/-- The cursor component of `placeCell`. -/
theorem placeCell_cursor (maxC r rge : Nat) (g : Grid) (tr : List Nat) (col : Nat)
    (cell : SrcCell) :
    (placeCell maxC r rge (g, tr, col) cell).2.2 =
      skipCols tr col + resolveColspanFinal maxC (skipCols tr col) cell.colspanAttr := by
  simp [placeCell]

theorem lt_placeCell_cursor (maxC r rge : Nat) (g : Grid) (tr : List Nat) (col : Nat)
    (cell : SrcCell) :
    col < (placeCell maxC r rge (g, tr, col) cell).2.2 := by
  rw [placeCell_cursor]
  have h1 := le_skipCols tr col
  have h2 := one_le_resolveColspanFinal maxC (skipCols tr col) cell.colspanAttr
  omega

/-- In-block read after `placeCell`: every covered slot holds the placed
record. -/
theorem placeCell_lookup_in (maxC r rge : Nat) (g : Grid) (tr : List Nat)
    (col : Nat) (cell : SrcCell) (i j : Nat)
    (hi : i < resolveRowspan rge r cell.rowspanAttr)
    (hj : j < resolveColspanFinal maxC (skipCols tr col) cell.colspanAttr) :
    lookupG (placeCell maxC r rge (g, tr, col) cell).1 (r + i) (skipCols tr col + j) =
      some (cellRecordAt r (skipCols tr col)
        (resolveRowspan rge r cell.rowspanAttr)
        (resolveColspanFinal maxC (skipCols tr col) cell.colspanAttr)
        (getCellText cell.content) (collectTablesF cell.content)
        (r + i) (skipCols tr col + j)) := by
  rw [placeCell_grid]
  apply lookupG_append_of_mem
  · rw [List.mem_reverse, mem_blockWrites]
    exact ⟨i, j, hi, hj, rfl⟩
  · intro e he hk
    rw [List.mem_reverse, mem_blockWrites] at he
    obtain ⟨i', j', _, _, he⟩ := he
    subst he
    simp only [cellRecordAt] at hk ⊢
    have h1 : r + i' = r + i := congrArg Prod.fst hk
    have h2 : skipCols tr col + j' = skipCols tr col + j := congrArg Prod.snd hk
    rw [h1, h2]

/-- Reads below the placed block (an earlier row, or an earlier column) are
unchanged by `placeCell`. -/
theorem placeCell_lookup_low (maxC r rge : Nat) (g : Grid) (tr : List Nat)
    (col : Nat) (cell : SrcCell) (rr cc : Nat)
    (h : rr < r ∨ cc < skipCols tr col) :
    lookupG (placeCell maxC r rge (g, tr, col) cell).1 rr cc = lookupG g rr cc := by
  rw [placeCell_grid]
  apply lookupG_append_of_not_mem
  intro e he hk
  rw [List.mem_reverse, mem_blockWrites] at he
  obtain ⟨i, j, _, _, he⟩ := he
  subst he
  have h1 : r + i = rr := congrArg Prod.fst hk
  have h2 : skipCols tr col + j = cc := congrArg Prod.snd hk
  omega

/-- The cell fold of one row never rewrites a slot on an earlier row nor one
strictly left of the column cursor. -/
theorem rowfold_preserve (maxC r rge : Nat) (cells : List SrcCell) :
    ∀ (g : Grid) (tr : List Nat) (col : Nat) (rr cc : Nat), (rr < r ∨ cc < col) →
      lookupG (cells.foldl (placeCell maxC r rge) (g, tr, col)).1 rr cc =
        lookupG g rr cc := by
  induction cells with
  | nil => intro g tr col rr cc _; rfl
  | cons cell cells ih =>
      intro g tr col rr cc h
      rw [List.foldl_cons]
      have hnext : (placeCell maxC r rge (g, tr, col) cell) =
          ((placeCell maxC r rge (g, tr, col) cell).1,
           (placeCell maxC r rge (g, tr, col) cell).2.1,
           (placeCell maxC r rge (g, tr, col) cell).2.2) := rfl
      rw [hnext, ih _ _ _ rr cc _]
      · exact placeCell_lookup_low maxC r rge g tr col cell rr cc
          (h.imp id (fun hc => lt_of_lt_of_le hc (le_skipCols tr col)))
      · rcases h with h | h
        · exact Or.inl h
        · exact Or.inr (lt_of_lt_of_le h (le_of_lt (lt_placeCell_cursor maxC r rge g tr col cell)))

/-- Every cell of a row is placed at some column at or right of the cursor;
after the row's fold each slot the cell covers in the origin row holds its
record. -/
theorem rowfold_place (maxC r rge : Nat) (cells : List SrcCell) :
    ∀ (g : Grid) (tr : List Nat) (col : Nat) (k : Nat) (cell : SrcCell),
      cells[k]? = some cell →
      ∃ col', col ≤ col' ∧
        ∀ j, j < resolveColspanFinal maxC col' cell.colspanAttr →
          lookupG (cells.foldl (placeCell maxC r rge) (g, tr, col)).1 r (col' + j) =
            some (cellRecordAt r col'
              (resolveRowspan rge r cell.rowspanAttr)
              (resolveColspanFinal maxC col' cell.colspanAttr)
              (getCellText cell.content) (collectTablesF cell.content)
              r (col' + j)) := by
  induction cells with
  | nil => intro g tr col k cell h; simp at h
  | cons c cells ih =>
      intro g tr col k cell h
      cases k with
      | zero =>
          rw [List.getElem?_cons_zero, Option.some_inj] at h
          subst h
          refine ⟨skipCols tr col, le_skipCols tr col, ?_⟩
          intro j hj
          rw [List.foldl_cons]
          have hnext : (placeCell maxC r rge (g, tr, col) c) =
              ((placeCell maxC r rge (g, tr, col) c).1,
               (placeCell maxC r rge (g, tr, col) c).2.1,
               (placeCell maxC r rge (g, tr, col) c).2.2) := rfl
          rw [hnext, rowfold_preserve maxC r rge cells _ _ _ r _ ?_]
          · exact placeCell_lookup_in maxC r rge g tr col c 0 j
              (lt_of_lt_of_le Nat.zero_lt_one (one_le_resolveRowspan rge r c.rowspanAttr)) hj
          · right
            rw [placeCell_cursor]
            omega
      | succ k =>
          rw [List.getElem?_cons_succ] at h
          have hnext : (placeCell maxC r rge (g, tr, col) c) =
              ((placeCell maxC r rge (g, tr, col) c).1,
               (placeCell maxC r rge (g, tr, col) c).2.1,
               (placeCell maxC r rge (g, tr, col) c).2.2) := rfl
          rw [List.foldl_cons, hnext]
          obtain ⟨col', hcol', hlook⟩ := ih _ _ _ k cell h
          exact ⟨col', le_trans (le_of_lt (lt_placeCell_cursor maxC r rge g tr col c)) hcol',
            hlook⟩

/-- Later rows of the second pass never rewrite a slot on an earlier row. -/
theorem passRows_preserve (maxC : Nat) (gEnds : List Nat) (rows : List SrcRow) :
    ∀ (r0 : Nat) (st : Grid × List Nat) (rr cc : Nat), rr < r0 →
      lookupG (passRows maxC gEnds rows r0 st).1 rr cc = lookupG st.1 rr cc := by
  induction rows with
  | nil => intro r0 st rr cc _; rfl
  | cons row rows ih =>
      intro r0 st rr cc h
      show lookupG (passRows maxC gEnds rows (r0 + 1)
          (rowStep maxC r0 (gEnds.getD r0 r0) row.cells st.1 st.2)).1 rr cc = _
      rw [ih (r0 + 1) _ rr cc (Nat.lt_succ_of_lt h)]
      show lookupG (row.cells.foldl (placeCell maxC r0 (gEnds.getD r0 r0))
          (st.1, decTracker st.2, 0)).1 rr cc = _
      exact rowfold_preserve maxC r0 (gEnds.getD r0 r0) row.cells st.1 _ 0 rr cc (Or.inl h)

/-- Splitting the second pass's row loop. -/
theorem passRows_append (maxC : Nat) (gEnds : List Nat) (xs ys : List SrcRow) :
    ∀ (r0 : Nat) (st : Grid × List Nat),
      passRows maxC gEnds (xs ++ ys) r0 st =
        passRows maxC gEnds ys (r0 + xs.length) (passRows maxC gEnds xs r0 st) := by
  induction xs with
  | nil => intro r0 st; simp [passRows]
  | cons x xs ih =>
      intro r0 st
      show passRows maxC gEnds (xs ++ ys) (r0 + 1) _ = _
      rw [ih (r0 + 1) _]
      simp only [passRows, List.length_cons]
      have : r0 + (xs.length + 1) = r0 + 1 + xs.length := by omega
      rw [this]

/-- The padding loop never changes a slot that already has a value. -/
theorem padfold_preserve (ps : List (Nat × Nat)) :
    ∀ (g : Grid) (r c : Nat) (v : NCell), lookupG g r c = some v →
      lookupG (ps.foldl
        (fun g p =>
          if (lookupG g p.1 p.2).isNone then (p, synthCell p.1 p.2) :: g else g) g)
        r c = some v := by
  induction ps with
  | nil => intro g r c v h; exact h
  | cons p ps ih =>
      intro g r c v h
      rw [List.foldl_cons]
      apply ih
      split
      · rename_i hnone
        rw [show ((p, synthCell p.1 p.2) : (Nat × Nat) × NCell) = ((p.1, p.2), synthCell p.1 p.2) from rfl,
          lookupG_cons]
        split
        · rename_i hp
          rw [hp.1, hp.2] at hnone
          rw [h] at hnone
          simp at hnone
        · exact h
      · exact h

/-- After the padding loop every visited slot has a value. -/
theorem padfold_fills (ps : List (Nat × Nat)) :
    ∀ (g : Grid) (r c : Nat), (r, c) ∈ ps →
      (lookupG (ps.foldl
        (fun g p =>
          if (lookupG g p.1 p.2).isNone then (p, synthCell p.1 p.2) :: g else g) g)
        r c).isSome := by
  induction ps with
  | nil => intro g r c h; cases h
  | cons p ps ih =>
      intro g r c h
      rw [List.foldl_cons]
      rcases List.mem_cons.mp h with h | h
      · subst h
        set g' := if (lookupG g r c).isNone then ((r, c), synthCell r c) :: g else g with hg'
        have hsome : (lookupG g' r c).isSome := by
          rw [hg']
          split
          · rw [show (((r, c), synthCell r c) : (Nat × Nat) × NCell) = (((r : Nat), (c : Nat)), synthCell r c) from rfl,
              lookupG_cons]
            simp
          · rename_i hnone
            rw [Option.isNone_iff_eq_none] at hnone
            cases hlook : lookupG g r c with
            | none => exact absurd hlook hnone
            | some v => simp
        obtain ⟨v, hv⟩ := Option.isSome_iff_exists.mp hsome
        rw [padfold_preserve ps g' r c v hv]
        simp
      · exact ih _ r c h

/-- The padding loop writes nothing but synthetic cells: a slot is either
what the second pass left there or the synthetic cell. -/
theorem padfold_raw_or_synth (ps : List (Nat × Nat)) :
    ∀ (g : Grid) (r c : Nat),
      lookupG (ps.foldl
        (fun g p =>
          if (lookupG g p.1 p.2).isNone then (p, synthCell p.1 p.2) :: g else g) g)
        r c = lookupG g r c ∨
      lookupG (ps.foldl
        (fun g p =>
          if (lookupG g p.1 p.2).isNone then (p, synthCell p.1 p.2) :: g else g) g)
        r c = some (synthCell r c) := by
  induction ps with
  | nil => intro g r c; exact Or.inl rfl
  | cons p ps ih =>
      intro g r c
      rw [List.foldl_cons]
      set g' := if (lookupG g p.1 p.2).isNone then ((p.1, p.2), synthCell p.1 p.2) :: g else g
        with hg'
      have hstep : lookupG g' r c = lookupG g r c ∨ lookupG g' r c = some (synthCell r c) := by
        rw [hg']
        split
        · rw [lookupG_cons]
          split
          · rename_i hp
            right
            rw [← hp.1, ← hp.2]
          · exact Or.inl rfl
        · exact Or.inl rfl
      have hp' : (p.1, p.2) = p := rfl
      rw [hp'] at hg'
      rcases ih g' r c with h | h
      · rcases hstep with h' | h'
        · exact Or.inl (h.trans h')
        · exact Or.inr (h.trans h')
      · exact Or.inr h

theorem mem_padPairs (rc cc r c : Nat) (hr : r < rc) (hc : c < cc) :
    (r, c) ∈ padPairs rc cc := by
  simp only [padPairs, List.mem_flatMap, List.mem_map, List.mem_range]
  exact ⟨r, hr, c, hc, rfl⟩

theorem padGrid_preserve (g : Grid) (rc cc r c : Nat) (v : NCell)
    (h : lookupG g r c = some v) : lookupG (padGrid g rc cc) r c = some v :=
  padfold_preserve (padPairs rc cc) g r c v h

theorem padGrid_fills (g : Grid) (rc cc r c : Nat) (hr : r < rc) (hc : c < cc) :
    (lookupG (padGrid g rc cc) r c).isSome :=
  padfold_fills (padPairs rc cc) g r c (mem_padPairs rc cc r c hr hc)

theorem padGrid_raw_or_synth (g : Grid) (rc cc r c : Nat) :
    lookupG (padGrid g rc cc) r c = lookupG g r c ∨
      lookupG (padGrid g rc cc) r c = some (synthCell r c) :=
  padfold_raw_or_synth (padPairs rc cc) g r c

/-- What `cellAt` reads is the padded raw grid. -/
theorem cellAt_eq (rows : List SrcRow) (r c : Nat) :
    cellAt (normalizeTableElement rows) r c =
      lookupG (padGrid (rawGrid rows)
        (max rows.length (gridMaxRow (rawGrid rows)))
        (max (tableMaxColumns rows) (gridMaxCol (rawGrid rows)))) r c := rfl

theorem rowCount_eq (rows : List SrcRow) :
    (normalizeTableElement rows).rowCount =
      max rows.length (gridMaxRow (rawGrid rows)) := rfl

theorem colCount_eq (rows : List SrcRow) :
    (normalizeTableElement rows).colCount =
      max (tableMaxColumns rows) (gridMaxCol (rawGrid rows)) := rfl

/-- Placement of an arbitrary source cell, carried to the final normalized
table: the cell of row `r` at position `k` lands at some column `col`, and
every slot of row `r` it covers holds its record with origin `(r, col)` and
the resolved spans. -/
theorem main_place (rows : List SrcRow) (r k : Nat) (row : SrcRow) (cell : SrcCell)
    (hrow : rows[r]? = some row) (hcell : row.cells[k]? = some cell) :
    ∃ col, ∀ j, j < resolveColspanFinal (tableMaxColumns rows) col cell.colspanAttr →
      cellAt (normalizeTableElement rows) r (col + j) =
        some (cellRecordAt r col
          (resolveRowspan ((tableRowGroupEnds rows).getD r r) r cell.rowspanAttr)
          (resolveColspanFinal (tableMaxColumns rows) col cell.colspanAttr)
          (getCellText cell.content) (collectTablesF cell.content)
          r (col + j)) := by
  have hr : r < rows.length := by
    by_contra hge
    rw [List.getElem?_eq_none (Nat.le_of_not_lt hge)] at hrow
    cases hrow
  have hsplit : rows = rows.take r ++ row :: rows.drop (r + 1) := by
    have h1 : rows = rows.take r ++ rows.drop r := (List.take_append_drop r rows).symm
    have h2 : rows.drop r = row :: rows.drop (r + 1) := by
      have := List.getElem?_eq_some_iff.mp hrow
      obtain ⟨h, hget⟩ := this
      rw [List.drop_eq_getElem_cons h, hget]
    rw [← h2]; exact h1
  have hlen : (rows.take r).length = r := by
    rw [List.length_take]; omega
  obtain ⟨col, hcol, hlook⟩ :=
    rowfold_place (tableMaxColumns rows) r ((tableRowGroupEnds rows).getD r r) row.cells
      (passRows (tableMaxColumns rows) (tableRowGroupEnds rows) (rows.take r) 0 ([], [])).1
      (decTracker (passRows (tableMaxColumns rows) (tableRowGroupEnds rows) (rows.take r) 0 ([], [])).2)
      0 k cell hcell
  refine ⟨col, fun j hj => ?_⟩
  rw [cellAt_eq]
  apply padGrid_preserve
  have hraw : rawGrid rows =
      (passRows (tableMaxColumns rows) (tableRowGroupEnds rows)
        (row :: rows.drop (r + 1)) r
        (passRows (tableMaxColumns rows) (tableRowGroupEnds rows) (rows.take r) 0 ([], []))).1 := by
    unfold rawGrid
    have h0 : passRows (tableMaxColumns rows) (tableRowGroupEnds rows) rows 0 ([], []) =
        passRows (tableMaxColumns rows) (tableRowGroupEnds rows)
          (rows.take r ++ row :: rows.drop (r + 1)) 0 ([], []) := by
      rw [← hsplit]
    rw [h0, passRows_append, hlen, Nat.zero_add]
  rw [hraw]
  show lookupG (passRows (tableMaxColumns rows) (tableRowGroupEnds rows)
      (rows.drop (r + 1)) (r + 1) _).1 r (col + j) = _
  rw [passRows_preserve _ _ _ (r + 1) _ r (col + j) (Nat.lt_succ_self r)]
  exact hlook j hj

/-- A successful grid read comes from a journal entry with that key. -/
theorem lookupG_mem (g : Grid) (r c : Nat) (v : NCell) (h : lookupG g r c = some v) :
    ((r, c), v) ∈ g := by
  unfold lookupG at h
  cases hf : g.find? (fun e => e.1.1 == r && e.1.2 == c) with
  | none => rw [hf] at h; cases h
  | some e =>
      rw [hf] at h
      have hm := List.mem_of_find?_eq_some hf
      have hp := List.find?_some hf
      obtain ⟨⟨e1, e2⟩, w⟩ := e
      simp only [Bool.and_eq_true, beq_iff_eq] at hp
      have h' : w = v := by simpa using h
      obtain ⟨hp1, hp2⟩ := hp
      subst hp1; subst hp2; subst h'
      exact hm

theorem rowfold_entryInv (bound maxC r rge : Nat) (hr : r < bound)
    (cells : List SrcCell) :
    ∀ (g : Grid) (tr : List Nat) (col : Nat),
      (∀ e ∈ g, entryInv bound e) →
      ∀ e ∈ (cells.foldl (placeCell maxC r rge) (g, tr, col)).1, entryInv bound e := by
  induction cells with
  | nil => intro g tr col hg e he; exact hg e he
  | cons c cells ih =>
      intro g tr col hg e he
      rw [List.foldl_cons] at he
      have hnext : (placeCell maxC r rge (g, tr, col) c) =
          ((placeCell maxC r rge (g, tr, col) c).1,
           (placeCell maxC r rge (g, tr, col) c).2.1,
           (placeCell maxC r rge (g, tr, col) c).2.2) := rfl
      rw [hnext] at he
      refine ih _ _ _ ?_ e he
      intro e' he'
      rw [placeCell_grid, List.mem_append, List.mem_reverse] at he'
      rcases he' with he' | he'
      · rw [mem_blockWrites] at he'
        obtain ⟨i, j, hi, hj, he'⟩ := he'
        subst he'
        refine ⟨rfl, rfl, ?_, ?_, ?_, ?_, hr, ?_⟩ <;>
          simp only [cellRecordAt] <;> omega
      · exact hg e' he'

theorem passRows_entryInv (bound maxC : Nat) (gEnds : List Nat) (rows : List SrcRow) :
    ∀ (r0 : Nat) (st : Grid × List Nat), r0 + rows.length ≤ bound →
      (∀ e ∈ st.1, entryInv bound e) →
      ∀ e ∈ (passRows maxC gEnds rows r0 st).1, entryInv bound e := by
  induction rows with
  | nil => intro r0 st _ hg e he; exact hg e he
  | cons row rows ih =>
      intro r0 st hb hg e he
      rw [List.length_cons] at hb
      refine ih (r0 + 1) _ (by omega) ?_ e he
      intro e' he'
      exact rowfold_entryInv bound maxC r0 (gEnds.getD r0 r0) (by omega) row.cells
        st.1 (decTracker st.2) 0 hg e' he'

theorem rawGrid_entryInv (rows : List SrcRow) :
    ∀ e ∈ rawGrid rows, entryInv rows.length e := by
  intro e he
  exact passRows_entryInv rows.length (tableMaxColumns rows) (tableRowGroupEnds rows)
    rows 0 ([], []) (by omega) (fun e h => absurd h (List.not_mem_nil e)) e he

theorem rowfold_mem_mono (maxC r rge : Nat) (cells : List SrcCell) :
    ∀ (g : Grid) (tr : List Nat) (col : Nat) (e : (Nat × Nat) × NCell), e ∈ g →
      e ∈ (cells.foldl (placeCell maxC r rge) (g, tr, col)).1 := by
  induction cells with
  | nil => intro g tr col e he; exact he
  | cons c cells ih =>
      intro g tr col e he
      rw [List.foldl_cons]
      have hnext : (placeCell maxC r rge (g, tr, col) c) =
          ((placeCell maxC r rge (g, tr, col) c).1,
           (placeCell maxC r rge (g, tr, col) c).2.1,
           (placeCell maxC r rge (g, tr, col) c).2.2) := rfl
      rw [hnext]
      refine ih _ _ _ e ?_
      rw [placeCell_grid, List.mem_append]
      exact Or.inr he

theorem rowfold_spanEnd (maxC r rge : Nat) (cells : List SrcCell) :
    ∀ (g : Grid) (tr : List Nat) (col : Nat), spanEndProp g →
      spanEndProp (cells.foldl (placeCell maxC r rge) (g, tr, col)).1 := by
  induction cells with
  | nil => intro g tr col hg; exact hg
  | cons c cells ih =>
      intro g tr col hg
      rw [List.foldl_cons]
      have hnext : (placeCell maxC r rge (g, tr, col) c) =
          ((placeCell maxC r rge (g, tr, col) c).1,
           (placeCell maxC r rge (g, tr, col) c).2.1,
           (placeCell maxC r rge (g, tr, col) c).2.2) := rfl
      rw [hnext]
      refine ih _ _ _ ?_
      intro e he
      rw [placeCell_grid, List.mem_append, List.mem_reverse] at he
      rcases he with he | he
      · rw [mem_blockWrites] at he
        obtain ⟨i, j, hi, hj, he⟩ := he
        subst he
        refine ⟨((r + (resolveRowspan rge r c.rowspanAttr - 1), skipCols tr col + j),
          cellRecordAt r (skipCols tr col) (resolveRowspan rge r c.rowspanAttr)
            (resolveColspanFinal maxC (skipCols tr col) c.colspanAttr)
            (getCellText c.content) (collectTablesF c.content)
            (r + (resolveRowspan rge r c.rowspanAttr - 1)) (skipCols tr col + j)), ?_, ?_⟩
        · rw [placeCell_grid, List.mem_append, List.mem_reverse, mem_blockWrites]
          exact Or.inl ⟨resolveRowspan rge r c.rowspanAttr - 1, j,
            by have := one_le_resolveRowspan rge r c.rowspanAttr; omega, hj, rfl⟩
        · have := one_le_resolveRowspan rge r c.rowspanAttr
          simp only [cellRecordAt]
          omega
      · obtain ⟨e', he', heq⟩ := hg e he
        refine ⟨e', ?_, heq⟩
        rw [placeCell_grid, List.mem_append]
        exact Or.inr he'

theorem passRows_spanEnd (maxC : Nat) (gEnds : List Nat) (rows : List SrcRow) :
    ∀ (r0 : Nat) (st : Grid × List Nat), spanEndProp st.1 →
      spanEndProp (passRows maxC gEnds rows r0 st).1 := by
  induction rows with
  | nil => intro r0 st hg; exact hg
  | cons row rows ih =>
      intro r0 st hg
      exact ih (r0 + 1) _ (rowfold_spanEnd maxC r0 (gEnds.getD r0 r0) row.cells
        st.1 (decTracker st.2) 0 hg)

theorem rawGrid_spanEnd (rows : List SrcRow) : spanEndProp (rawGrid rows) :=
  passRows_spanEnd (tableMaxColumns rows) (tableRowGroupEnds rows) rows 0 ([], [])
    (fun e h => absurd h (List.not_mem_nil e))

theorem le_foldr_max {α : Type} (f : α → Nat) (l : List α) (e : α) (he : e ∈ l) :
    f e ≤ l.foldr (fun e a => max (f e) a) 0 := by
  induction l with
  | nil => cases he
  | cons x l ih =>
      rw [List.foldr_cons]
      rcases List.mem_cons.mp he with h | h
      · subst h; exact Nat.le_max_left _ _
      · exact le_trans (ih h) (Nat.le_max_right _ _)

theorem foldr_max_le {α : Type} (f : α → Nat) (l : List α) (b : Nat)
    (h : ∀ e ∈ l, f e ≤ b) : l.foldr (fun e a => max (f e) a) 0 ≤ b := by
  induction l with
  | nil => exact Nat.zero_le b
  | cons x l ih =>
      rw [List.foldr_cons]
      exact Nat.max_le.mpr ⟨h x (List.mem_cons_self _ _),
        ih (fun e he => h e (List.mem_cons_of_mem _ he))⟩

/-- The extent of the written rows equals the largest span end over the
placed cells: the grid's row count never clips a rowspan. -/
theorem gridMaxRow_eq_supSpanEnd (rows : List SrcRow) :
    gridMaxRow (rawGrid rows) = supSpanEnd (rawGrid rows) := by
  apply le_antisymm
  · apply foldr_max_le
    intro e he
    have hinv := rawGrid_entryInv rows e he
    have h1 : e.1.1 + 1 ≤ e.2.originRow + e.2.rowspan := by
      obtain ⟨_, _, _, h, _⟩ := hinv; omega
    exact le_trans h1 (le_foldr_max (fun e => e.2.originRow + e.2.rowspan) _ e he)
  · apply foldr_max_le
    intro e he
    obtain ⟨e', he', heq⟩ := rawGrid_spanEnd rows e he
    have h2 : e'.1.1 + 1 ≤ gridMaxRow (rawGrid rows) :=
      le_foldr_max (fun e => e.1.1 + 1) (rawGrid rows) e' he'
    omega

/-! ## Claim theorems -/

/-- C1.  For every input table, `normalizeTableElement` returns a dense
grid: every coordinate of `[0,rowCount) × [0,colCount)` holds exactly one
cell (the journal lookup succeeds), and a slot the placement passes left
unset is the synthetic 1×1 empty cell whose origin equals its own
coordinates. -/
theorem c1_density (rows : List SrcRow) (r c : Nat)
    (hr : r < (normalizeTableElement rows).rowCount)
    (hc : c < (normalizeTableElement rows).colCount) :
    (cellAt (normalizeTableElement rows) r c).isSome = true ∧
    (lookupG (rawGrid rows) r c = none →
      cellAt (normalizeTableElement rows) r c = some (synthCell r c)) := by
  rw [rowCount_eq] at hr
  rw [colCount_eq] at hc
  have hsome : (cellAt (normalizeTableElement rows) r c).isSome = true := by
    rw [cellAt_eq]
    exact padGrid_fills _ _ _ r c hr hc
  refine ⟨hsome, fun hnone => ?_⟩
  rcases padGrid_raw_or_synth (rawGrid rows)
      (max rows.length (gridMaxRow (rawGrid rows)))
      (max (tableMaxColumns rows) (gridMaxCol (rawGrid rows))) r c with h | h
  · exfalso
    rw [cellAt_eq] at hsome
    rw [h, hnone] at hsome
    cases hsome
  · rw [cellAt_eq]
    exact h

/-- Witness for C1 on the spec's §8 scenario table. -/
theorem c1_density_witness :
    (cellAt (normalizeTableElement scenarioRows) 2 2).isSome = true ∧
    (lookupG (rawGrid scenarioRows) 2 2 = none →
      cellAt (normalizeTableElement scenarioRows) 2 2 = some (synthCell 2 2)) :=
  c1_density scenarioRows 2 2 (by decide) (by decide)

/-- C2.  The span-coverage invariant fails on the code: in the two-row table
`[[A(rowspan 2), B, C], [D(colspan 2)]]` the cell at `(0,0)` records spans
`(originRow 0, originCol 0, rowspan 2, colspan 1)`, yet the covered position
`(1,0)` holds a cell with different `(originRow, originCol, rowspan,
colspan)` — the row-start tracker decrement consumes the occupancy of a
`rowspan="2"` cell before its second row is processed, so `D` is placed at
column 0 and overwrites the spanned slot.  (The repository's own extractor
test expects the spanned slot to keep the origin's identity on exactly this
table shape.) -/
theorem c2_span_coverage_bug :
    (cellAt (normalizeTableElement rowspanOverlapRows) 0 0).map
      (fun v => (v.originRow, v.originCol, v.rowspan, v.colspan)) = some (0, 0, 2, 1) ∧
    (cellAt (normalizeTableElement rowspanOverlapRows) 1 0).map
      (fun v => (v.originRow, v.originCol, v.rowspan, v.colspan)) = some (1, 0, 1, 2) := by
  decide

/-- C3 counterexample.  In the one-row table `[[colspan "0", plain]]` the
`colspan="0"` cell resolves to colspan 2 starting at column 0, but the
table's `colCount` is 3 and the slot at column `colCount − 1 = 2` belongs to
the following cell — the claim "occupies through `colCount − 1`" is false. -/
theorem c3_colspan_zero_counterexample :
    (cellAt (normalizeTableElement colspanZeroRows) 0 0).map
      (fun v => (v.originCol, v.colspan)) = some (0, 2) ∧
    (normalizeTableElement colspanZeroRows).colCount = 3 ∧
    (cellAt (normalizeTableElement colspanZeroRows) 0 2).map
      (fun v => (v.originRow, v.originCol)) = some (0, 2) := by
  decide

/-- C3 as amended.  A `colspan="0"` cell placed at column `col` occupies the
columns `col` through `col + max(1, maxColumns − col) − 1`, where
`maxColumns` is the first-pass column count (`computeMaxColumns`, which
treats `colspan="0"` as 1) — i.e. through `maxColumns − 1` whenever
`col < maxColumns` — rather than through `colCount − 1`. -/
theorem c3_colspan_zero_amended (rows : List SrcRow) (r k : Nat) (row : SrcRow)
    (cell : SrcCell) (hrow : rows[r]? = some row) (hcell : row.cells[k]? = some cell)
    (h0 : cell.colspanAttr = some 0) :
    ∃ col, ∀ j, j < max 1 (tableMaxColumns rows - col) →
      ∃ v, cellAt (normalizeTableElement rows) r (col + j) = some v ∧
        v.originRow = r ∧ v.originCol = col ∧
        v.colspan = max 1 (tableMaxColumns rows - col) := by
  obtain ⟨col, hlook⟩ := main_place rows r k row cell hrow hcell
  have hcs : resolveColspanFinal (tableMaxColumns rows) col cell.colspanAttr =
      max 1 (tableMaxColumns rows - col) := by
    simp [resolveColspanFinal, h0]
  refine ⟨col, fun j hj => ?_⟩
  rw [← hcs] at hj
  exact ⟨_, hlook j hj, rfl, rfl, hcs⟩

/-- Witness for the amended C3 on the counterexample table. -/
theorem c3_colspan_zero_amended_witness :
    ∃ col, ∀ j, j < max 1 (tableMaxColumns colspanZeroRows - col) →
      ∃ v, cellAt (normalizeTableElement colspanZeroRows) 0 (col + j) = some v ∧
        v.originRow = 0 ∧ v.originCol = col ∧
        v.colspan = max 1 (tableMaxColumns colspanZeroRows - col) :=
  c3_colspan_zero_amended colspanZeroRows 0 0
    ⟨0, [mkCell none (some 0) "a", mkCell none none "b"]⟩
    (mkCell none (some 0) "a") rfl rfl rfl

/-- C4.  A cell with `rowspan="0"` resolves its effective rowspan to
`(last row index of its immediate row-group) − (its row index) + 1`: the
origin slot of every such cell carries exactly that rowspan. -/
theorem c4_rowspan_zero (rows : List SrcRow) (r k : Nat) (row : SrcRow)
    (cell : SrcCell) (hrow : rows[r]? = some row) (hcell : row.cells[k]? = some cell)
    (h0 : cell.rowspanAttr = some 0) :
    ∃ col v, cellAt (normalizeTableElement rows) r col = some v ∧
      v.originRow = r ∧ v.originCol = col ∧
      v.rowspan = (tableRowGroupEnds rows).getD r r - r + 1 := by
  obtain ⟨col, hlook⟩ := main_place rows r k row cell hrow hcell
  have hcs := one_le_resolveColspanFinal (tableMaxColumns rows) col cell.colspanAttr
  have h00 := hlook 0 (by omega)
  rw [Nat.add_zero] at h00
  refine ⟨col, _, h00, rfl, rfl, ?_⟩
  simp [cellRecordAt, resolveRowspan, h0]

/-- Witness for C4: in a 3-row row-group starting at row 0, the
`rowspan="0"` cell of the first row gets effective rowspan 3. -/
theorem c4_rowspan_zero_witness :
    ∃ col v, cellAt (normalizeTableElement rowGroupRows) 0 col = some v ∧
      v.originRow = 0 ∧ v.originCol = col ∧ v.rowspan = 3 := by
  obtain ⟨col, v, h1, h2, h3, h4⟩ :=
    c4_rowspan_zero rowGroupRows 0 0 ⟨0, [mkCell (some 0) none "a", mkCell none none "b"]⟩
      (mkCell (some 0) none "a") rfl rfl rfl
  refine ⟨col, v, h1, h2, h3, ?_⟩
  rw [h4]
  decide

/-- C5.  Cell text never contains nested-table content: `getCellText` is
unchanged when the children of every nested `<table>` are erased (the
nested subtrees are removed before `textContent` is computed), and on a
concrete cell containing `INNER` inside a nested table the produced text is
exactly the outer text. -/
theorem c5_nested_isolation :
    (∀ content : DomForest, getCellText (clearTablesF content) = getCellText content) ∧
    (cellAt (normalizeTableElement nestedTableRows) 0 0).map (·.text) = some "outer" := by
  constructor
  · intro content
    unfold getCellText
    rw [pruneTablesF_clearTablesF]
  · decide

set_option maxRecDepth 40000 in
/-- C6 counterexample.  An inline declaration does not beat every stylesheet
selector match of equal importance: inline styles are seeded at the sentinel
specificity `[1000, 0, 0]`, and a selector with 1000 id selectors and one
class has specificity `[1000, 1, 0]`, so its non-important declaration wins
over the inline `color: blue`. -/
theorem c6_cascade_counterexample :
    readInlineStyles "color: blue" =
      [("color", ⟨"blue", false, (1000, 0, 0), 0⟩)] ∧
    calculateSpecificity (.cons (idHeavyChain 1000) .nil) = ((1000 : Nat), (1 : Nat), (0 : Nat)) ∧
    resolvedValue cascadeEls cascadeRulesIdHeavy 0 "color" = some "red" := by
  refine ⟨by decide, by decide, by decide⟩

/-- C6 as amended.  `compareDecl` selects winners by: (1) `!important`
beats non-important; (2) at equal importance an inline declaration (sentinel
specificity `[1000, 0, 0]`) beats any stylesheet match of strictly smaller
specificity — not every match, as a selector can reach specificity
`[1000, 0, 0]` or more; (3) at equal importance higher specificity wins;
(4) at equal importance and specificity the later source order wins.  The
two cascade examples of the claim hold: `div{color:red}` loses to inline
`color: blue`, and `div{color:red!important}` beats it. -/
theorem c6_cascade_amended :
    (∀ a b : DeclMeta, a.important = true → b.important = false → 0 < compareDecl a b) ∧
    (∀ a b : DeclMeta, a.important = b.important → a.specificity = (1000, 0, 0) →
      compareSpecificity b.specificity (1000, 0, 0) < 0 → compareDecl b a < 0) ∧
    (∀ a b : DeclMeta, a.important = b.important →
      0 < compareSpecificity a.specificity b.specificity → 0 < compareDecl a b) ∧
    (∀ a b : DeclMeta, a.important = b.important → a.specificity = b.specificity →
      (0 < compareDecl a b ↔ b.order < a.order)) ∧
    resolvedValue cascadeEls cascadeRulesPlain 0 "color" = some "blue" ∧
    resolvedValue cascadeEls cascadeRulesImportant 0 "color" = some "red" := by
  refine ⟨?_, ?_, ?_, ?_, by decide, by decide⟩
  · intro a b h1 h2
    have hne : a.important ≠ b.important := by rw [h1, h2]; simp
    rw [compareDecl, if_pos hne, if_pos h1]
    omega
  · intro a b h ha hb
    have hne : ¬(b.important ≠ a.important) := by simp [h]
    have hnz : compareSpecificity b.specificity a.specificity ≠ 0 := by
      rw [ha]; omega
    rw [compareDecl, if_neg hne, if_pos hnz, ha]
    exact hb
  · intro a b h hs
    have hne : ¬(a.important ≠ b.important) := by simp [h]
    have hnz : compareSpecificity a.specificity b.specificity ≠ 0 := by omega
    rw [compareDecl, if_neg hne, if_pos hnz]
    exact hs
  · intro a b h hs
    have hne : ¬(a.important ≠ b.important) := by simp [h]
    have hz : ¬(compareSpecificity a.specificity b.specificity ≠ 0) := by
      rw [hs]
      simp [compareSpecificity]
    rw [compareDecl, if_neg hne, if_neg hz]
    omega

/-- Witness for the amended C6 at concrete declarations. -/
theorem c6_cascade_amended_witness :
    0 < compareDecl ⟨"red", true, (0, 0, 1), 0⟩ ⟨"blue", false, (1000, 0, 0), 0⟩ ∧
    compareDecl ⟨"red", false, (0, 0, 1), 5⟩ ⟨"blue", false, (1000, 0, 0), 0⟩ < 0 ∧
    0 < compareDecl ⟨"x", false, (0, 1, 0), 0⟩ ⟨"y", false, (0, 0, 9), 7⟩ ∧
    (0 < compareDecl ⟨"x", false, (0, 1, 0), 4⟩ ⟨"y", false, (0, 1, 0), 3⟩ ↔ (3 : Nat) < 4) :=
  ⟨c6_cascade_amended.1 _ _ rfl rfl,
   c6_cascade_amended.2.1 _ _ rfl rfl (by decide),
   c6_cascade_amended.2.2.1 _ _ rfl (by decide),
   c6_cascade_amended.2.2.2.1 _ _ rfl rfl⟩

/-- C7.  `calculateSpecificity` does not give `:where(...)` a zero
contribution, nor `:not(...)` exactly its argument's specificity: the
parser's `walk` descends into a pseudo's argument selectors after the
callback handled the pseudo (only a `false` return stops the descent, and
the callback returns nothing), so the argument's simple selectors are
counted again on top of the handler's contribution — `:where(#a)` computes
`[1,0,0]` (claim says `[0,0,0]`) and `:not(.a #b)` computes `[2,2,0]`
(claim says `[1,1,0]`). -/
theorem c7_specificity_walk_bug :
    calculateSpecificity selWhereId = ((1 : Nat), (0 : Nat), (0 : Nat)) ∧
    calculateSpecificity selNotClsId = ((2 : Nat), (2 : Nat), (0 : Nat)) := by
  decide

/-- C8 counterexample.  A cell with `textAlign = 'justify'` is built with
`left` paragraph alignment, not `justified`: the builder's ternary maps only
`center` and `right`. -/
theorem c8_justify_counterexample :
    paragraphAlignment "justify" = DocxAlignment.left ∧
    DocxAlignment.left ≠ DocxAlignment.justified := by
  decide

/-- C8 as amended.  The built paragraph's alignment is `center` for
`textAlign = 'center'`, `right` for `'right'`, and `left` for any other
value — including `'justify'`. -/
theorem c8_alignment_amended :
    paragraphAlignment "center" = DocxAlignment.center ∧
    paragraphAlignment "right" = DocxAlignment.right ∧
    ∀ s : String, s ≠ "center" → s ≠ "right" → paragraphAlignment s = DocxAlignment.left := by
  refine ⟨by decide, by decide, ?_⟩
  intro s h1 h2
  simp [paragraphAlignment, h1, h2]

/-- Witness for the amended C8, applied at `justify`. -/
theorem c8_alignment_amended_witness :
    paragraphAlignment "center" = DocxAlignment.center ∧
    paragraphAlignment "right" = DocxAlignment.right ∧
    paragraphAlignment "justify" = DocxAlignment.left :=
  ⟨c8_alignment_amended.1, c8_alignment_amended.2.1,
   c8_alignment_amended.2.2 "justify" (by decide) (by decide)⟩

/-- The fallback scanner is the identity on inputs with no `<style`. -/
theorem stripAuxF_id (fuel : Nat) :
    ∀ s : List Char, hasStyleOpenCI s = false → stripAuxF fuel s = s := by
  induction fuel with
  | zero => intro s _; rfl
  | succ fuel ih =>
      intro s h
      cases s with
      | nil => rfl
      | cons c t =>
          rw [hasStyleOpenCI, Bool.or_eq_false_iff] at h
          obtain ⟨h1, h2⟩ := h
          rw [stripAuxF, if_neg (by rw [h1]; exact Bool.false_ne_true)]
          rw [ih t h2]

/-- C9.  With no DOM implementation, `preprocessHtmlForDocx` returns the
input with every `<style ...>...</style>` block removed by textual pattern
matching (case-insensitively) and leaves every other character unchanged
(the function is total, so it never throws): inputs without `<style` come
back identical, both style blocks of a two-block input are removed, an
unterminated `<style` is left as-is, and the empty input maps to the empty
string. -/
theorem c9_fallback_strip :
    (∀ html : String, hasStyleOpenCI html.data = false →
      preprocessHtmlForDocxNoDom html = html) ∧
    stripStyleTags "a<style>x</style>b<STYLE media=z>y</STYLE>c" = "abc" ∧
    stripStyleTags "a<style>x" = "a<style>x" ∧
    preprocessHtmlForDocxNoDom "" = "" := by
  refine ⟨?_, by decide, by decide, by decide⟩
  intro html h
  by_cases he : html = ""
  · subst he; rfl
  · show (if html = "" then "" else stripStyleTags html) = html
    rw [if_neg he]
    show String.mk (stripAuxF html.data.length html.data) = html
    rw [stripAuxF_id html.data.length html.data h]

/-- Witness for C9 on a style-free input. -/
theorem c9_fallback_strip_witness :
    hasStyleOpenCI "<p>hi</p>".data = false ∧
    preprocessHtmlForDocxNoDom "<p>hi</p>" = "<p>hi</p>" :=
  ⟨by decide, c9_fallback_strip.1 "<p>hi</p>" (by decide)⟩

/-- C10.  A rowspan reaching past the last source row is not clipped: the
returned `rowCount` is the larger of the source row count and the largest
`originRow + rowspan` over all placed grid entries — so when some placed
span reaches past the last source row, `rowCount` equals that largest span
end — and every slot of the extra rows beyond the source rows either
carries the metadata of a placed spanning cell (origin in a source row, the
slot inside the cell's span block) or is a synthetic 1×1 empty cell. -/
theorem c10_span_overflow (rows : List SrcRow) :
    (normalizeTableElement rows).rowCount =
      max rows.length (supSpanEnd (rawGrid rows)) ∧
    (rows.length < supSpanEnd (rawGrid rows) →
      (normalizeTableElement rows).rowCount = supSpanEnd (rawGrid rows)) ∧
    ∀ r c, rows.length ≤ r → r < (normalizeTableElement rows).rowCount →
      c < (normalizeTableElement rows).colCount →
      cellAt (normalizeTableElement rows) r c = some (synthCell r c) ∨
      ∃ v, cellAt (normalizeTableElement rows) r c = some v ∧
        v.row = r ∧ v.col = c ∧ v.originRow < rows.length ∧
        v.originRow ≤ r ∧ r < v.originRow + v.rowspan ∧
        v.originCol ≤ c ∧ c < v.originCol + v.colspan := by
  refine ⟨?_, ?_, ?_⟩
  · rw [rowCount_eq, gridMaxRow_eq_supSpanEnd]
  · intro hlt
    rw [rowCount_eq, gridMaxRow_eq_supSpanEnd]
    omega
  · intro r c hLr hr hc
    rw [rowCount_eq] at hr
    rw [colCount_eq] at hc
    have hsome : (lookupG (padGrid (rawGrid rows)
        (max rows.length (gridMaxRow (rawGrid rows)))
        (max (tableMaxColumns rows) (gridMaxCol (rawGrid rows)))) r c).isSome :=
      padGrid_fills _ _ _ r c hr hc
    rcases padGrid_raw_or_synth (rawGrid rows)
        (max rows.length (gridMaxRow (rawGrid rows)))
        (max (tableMaxColumns rows) (gridMaxCol (rawGrid rows))) r c with h | h
    · cases hraw : lookupG (rawGrid rows) r c with
      | none =>
          exfalso
          rw [h, hraw] at hsome
          cases hsome
      | some v =>
          right
          have hm := lookupG_mem _ _ _ _ hraw
          have hinv := rawGrid_entryInv rows _ hm
          obtain ⟨i1, i2, i3, i4, i5, i6, i7, _⟩ := hinv
          refine ⟨v, ?_, i1, i2, i7, i3, i4, i5, i6⟩
          rw [cellAt_eq, h, hraw]
    · left
      rw [cellAt_eq]
      exact h

/-- Witness for C10 on a one-row table whose first cell spans three rows. -/
theorem c10_span_overflow_witness :
    (normalizeTableElement rowspanPastEndRows).rowCount =
      max rowspanPastEndRows.length (supSpanEnd (rawGrid rowspanPastEndRows)) ∧
    (normalizeTableElement rowspanPastEndRows).rowCount =
      supSpanEnd (rawGrid rowspanPastEndRows) ∧
    (cellAt (normalizeTableElement rowspanPastEndRows) 2 1 = some (synthCell 2 1) ∨
      ∃ v, cellAt (normalizeTableElement rowspanPastEndRows) 2 1 = some v ∧
        v.row = 2 ∧ v.col = 1 ∧ v.originRow < rowspanPastEndRows.length ∧
        v.originRow ≤ 2 ∧ 2 < v.originRow + v.rowspan ∧
        v.originCol ≤ 1 ∧ 1 < v.originCol + v.colspan) :=
  ⟨(c10_span_overflow rowspanPastEndRows).1,
   (c10_span_overflow rowspanPastEndRows).2.1 (by decide),
   (c10_span_overflow rowspanPastEndRows).2.2 2 1 (by decide) (by decide) (by decide)⟩
